import Mathlib

/-
Verification of the file-synchronization service's reconciliation engine.

The Python source (src/api/api.py, src/main.py) is shallowly embedded below:
paths are lists of characters, the remote store is an oracle mapping a
remote path to the HTTP status and item list the service would receive,
and each pass is a pure function returning the list of operations the
engine issues (folder creations, listings, uploads, deletions).
-/

namespace FileSync

/-- Auxiliary for splitting a character list at slash characters, mirroring
Python's str.split with an explicit separator.  Returns the chunk before the
first slash and the list of the remaining chunks. -/
def splitSlashA : List Char → List Char × List (List Char)
  | [] => ([], [])
  | c :: cs =>
    if c = '/' then ([], (splitSlashA cs).1 :: (splitSlashA cs).2)
    else (c :: (splitSlashA cs).1, (splitSlashA cs).2)

/-- Python's path.split with separator slash: always returns at least one
chunk, empty chunks between consecutive separators are kept. -/
def splitSlash (s : List Char) : List (List Char) :=
  (splitSlashA s).1 :: (splitSlashA s).2

/-- Joining path components with a single slash, as str.join does. -/
def joinSlash : List (List Char) → List Char
  | [] => []
  | [x] => x
  | x :: y :: r => x ++ '/' :: joinSlash (y :: r)

/-- The parent-reference path component. -/
def pardir : List Char := ['.', '.']

/-- One step of posixpath.normpath's component loop: empty components and
single dots are dropped, a parent reference either extends a leading run of
parent references, cancels the previous component, or is dropped at an
absolute root.  The accumulator is kept in reversed order. -/
def normStep (initS : Nat) (acc : List (List Char)) (comp : List Char) : List (List Char) :=
  if comp = [] ∨ comp = ['.'] then acc
  else if comp = pardir then
    match acc with
    | [] => if initS = 0 then [pardir] else []
    | c :: tl => if c = pardir then pardir :: c :: tl else tl
  else comp :: acc

/-- posixpath.normpath's component normalization. -/
def normComps (initS : Nat) (comps : List (List Char)) : List (List Char) :=
  (comps.foldl (normStep initS) []).reverse

/-- The number of leading slashes posixpath.normpath preserves: two leading
slashes are kept as such (POSIX special case), any other number collapses
to one, relative paths have none. -/
def initSlashes (p : List Char) : Nat :=
  if p.take 1 ≠ ['/'] then 0
  else if p.take 2 = ['/', '/'] ∧ p.take 3 ≠ ['/', '/', '/'] then 2
  else 1

/-- posixpath.normpath on a character list: collapses redundant separators
and parent references; the empty path normalizes to a single dot. -/
def normpathL (p : List Char) : List Char :=
  if p = [] then ['.']
  else if List.replicate (initSlashes p) '/' ++
      joinSlash (normComps (initSlashes p) (splitSlash p)) = [] then ['.']
  else List.replicate (initSlashes p) '/' ++
    joinSlash (normComps (initSlashes p) (splitSlash p))

/-- A path component that survives normalization in the interior of a
normalized component list: nonempty, not a single dot and not a parent
reference. -/
def isNormSeg (x : List Char) : Prop := x ≠ [] ∧ x ≠ ['.'] ∧ x ≠ pardir

/-- The shape of a normalized component list: a leading run of parent
references (absent when the path is absolute) followed by ordinary
components. -/
def GoodComps (initS : Nat) (l : List (List Char)) : Prop :=
  ∃ k rest, l = List.replicate k pardir ++ rest ∧ (∀ x ∈ rest, isNormSeg x) ∧
    (initS ≠ 0 → k = 0)

/-- The invariant of the reversed accumulator of the normalization fold:
ordinary components on top of a bottom run of parent references (absent
when the path is absolute). -/
def GoodAcc (initS : Nat) (acc : List (List Char)) : Prop :=
  ∃ front k, acc = front ++ List.replicate k pardir ∧ (∀ x ∈ front, isNormSeg x) ∧
    (initS ≠ 0 → k = 0)

/-- sanitize_path from src/api/api.py on a character list: normpath followed
by replacing every backslash with a slash. -/
def sanitizeL (p : List Char) : List Char :=
  (normpathL p).map (fun c => if c = '\\' then '/' else c)

/-- sanitize_path from src/api/api.py: removes dots and normalizes the path,
converting backslashes to slashes. -/
def sanitize_path (p : String) : String :=
  String.mk (sanitizeL p.data)

/-- Whether a path segment starts with a dot, an underscore, or the reserved
virtual-environment name, as part.startswith in validate_path. -/
def segBad (part : List Char) : Bool :=
  match part with
  | '.' :: _ => true
  | '_' :: _ => true
  | 'v' :: 'e' :: 'n' :: 'v' :: _ => true
  | _ => false

/-- validate_path from src/api/api.py: the path is eligible for
synchronization when no slash-separated segment starts with a dot,
an underscore or the reserved name, and no ampersand occurs anywhere. -/
def validate_path (path : List Char) : Bool :=
  ((splitSlash path).all (fun part => !segBad part)) && !(path.contains '&')

/-- Python str.strip with the slash character: drops leading and trailing
slashes. -/
def stripSlash (s : List Char) : List Char :=
  ((s.dropWhile (fun c => c = '/')).reverse.dropWhile (fun c => c = '/')).reverse

/-- Python str.rstrip with the slash character: drops trailing slashes. -/
def rstripSlash (s : List Char) : List Char :=
  (s.reverse.dropWhile (fun c => c = '/')).reverse

/-- Python truthiness of an optional string: None and the empty string are
falsy. -/
def truthy : Option (List Char) → Bool
  | none => false
  | some [] => false
  | some (_ :: _) => true

/-- get_full_path from src/api/api.py: joins the configured cloud folder
with the optional remote directory path and optional file name, strips
outer slashes and sanitizes the result. -/
def get_full_path (folder : List Char) (remote_path filename : Option (List Char)) : List Char :=
  if truthy remote_path && truthy filename then
    sanitizeL (stripSlash (folder ++ '/' :: remote_path.getD [] ++ '/' :: filename.getD []))
  else if truthy filename then
    sanitizeL (stripSlash (folder ++ '/' :: filename.getD []))
  else if truthy remote_path then
    sanitizeL (stripSlash (folder ++ '/' :: remote_path.getD []))
  else folder

/-- One item of a cloud directory listing as returned to get_info: the
entry name, its optional md5 digest, and its resource type. -/
structure Item where
  name : List Char
  md5 : Option (List Char)
  type : List Char
deriving DecidableEq

/-- The resource type of file entries in a cloud listing. -/
def fileTypeName : List Char := ("file").data

/-- get_info from src/api/api.py as a function of the HTTP response it
receives for a directory listing: on status 200 it returns the mapping
from file-entry names to their optional md5 digests (directory entries are
dropped); on any other status it raises FileNotFoundError, modelled as
none. -/
def get_info (status : Nat) (items : List Item) : Option (List (List Char × Option (List Char))) :=
  if status = 200 then
    some (items.filterMap (fun it => if it.type = fileTypeName then some (it.name, it.md5) else none))
  else none

/-- Python dict lookup on an association list built by insertion in order:
the last binding of a key wins, a missing key yields None; a stored None
digest and a missing key are indistinguishable, as cloud_files.get is. -/
def dictGet (m : List (List Char × Option (List Char))) (k : List Char) : Option (List Char) :=
  match m.reverse.find? (fun kv => kv.1 == k) with
  | some kv => kv.2
  | none => none

/-- A network operation issued by the engine.  Each operation records the
arguments of the corresponding call site: the optional remote directory
path (None for the root) and, for file operations, the file name; the full
cloud path the transport would receive is get_full_path applied to them. -/
inductive Op where
  | createFolder (rp : Option (List Char))
  | listDir (rp : Option (List Char))
  | upload (localPath : List Char) (rp : Option (List Char)) (name : List Char)
  | delete (rp : Option (List Char)) (name : List Char)
deriving DecidableEq

/-- A local directory tree: the files of the directory with the result of
get_file_hash on each (None when the file could not be read), and the
named subdirectories. -/
inductive LTree where
  | node (files : List (List Char × Option (List Char))) (dirs : List (List Char × LTree))

/-- The files of a local directory with their hash results. -/
def filesOf : LTree → List (List Char × Option (List Char))
  | .node fs _ => fs

/-- The named subdirectories of a local directory. -/
def dirsOf : LTree → List (List Char × LTree)
  | .node _ ds => ds

/-- os.listdir on a local directory: the raw name listing, files and
subdirectories together, with no eligibility filtering. -/
def listdir (t : LTree) : List (List Char) :=
  (filesOf t).map (fun nf => nf.1) ++ (dirsOf t).map (fun nd => nd.1)

/-- The remote store as seen by one pass: for each full cloud path queried,
the HTTP status and items of the listing response the service receives. -/
def Remote : Type := List Char → Nat × List Item

mutual

/-- os.walk over a local tree in top-down order: each entry carries the
path segments relative to the walk root, the local directory path, and the
subtree.  The root itself is the first entry, with no segments. -/
def walkRel (segs : List (List Char)) (localPath : List Char) : LTree → List (List (List Char) × List Char × LTree)
  | .node fs ds => (segs, localPath, .node fs ds) :: walkRelL segs localPath ds

/-- os.walk over the named subdirectories of one directory, in order. -/
def walkRelL (segs : List (List Char)) (localPath : List Char) : List (List Char × LTree) → List (List (List Char) × List Char × LTree)
  | [] => []
  | (name, t) :: rest => walkRel (segs ++ [name]) (localPath ++ '/' :: name) t ++ walkRelL segs localPath rest

end

/-- os.path.relpath of a walked directory from the walk root: a single dot
for the root itself, otherwise the slash-joined segments. -/
def relName (segs : List (List Char)) : List Char :=
  match segs with
  | [] => ['.']
  | _ => joinSlash segs

/-- cleanup from src/api/api.py: deletes every name of the cloud listing
that is absent from the raw local directory listing; neither side is
filtered by validate_path here. -/
def cleanup (remote_path : Option (List Char)) (cloud : List (List Char × Option (List Char))) (local_files : List (List Char)) : List Op :=
  ((cloud.map (fun kv => kv.1)).filter (fun n => !(local_files.contains n))).map
    (fun n => Op.delete remote_path n)

/-- sync_directory from src/api/api.py: ensures the remote directory
exists, lists it, queues an upload for every eligible local file whose
hash differs from the cloud digest of the same name (a missing cloud entry
compares as None), and then deletes cloud files absent from the raw local
listing.  When the listing raises (any non-200 status) the directory is
skipped after the create and list calls.  Returns the non-upload
operations in order and the queued uploads. -/
def sync_directory (folder : List Char) (remote : Remote) (localDirPath : List Char) (t : LTree) (remote_path : Option (List Char)) : List Op × List Op :=
  let cur := get_full_path folder remote_path none
  let r := remote cur
  match get_info r.1 r.2 with
  | none => ([Op.createFolder remote_path, Op.listDir remote_path], [])
  | some cloud =>
    let lfiles := (filesOf t).filter (fun nf => validate_path nf.1)
    let ups := lfiles.filterMap (fun nf =>
      if nf.2 ≠ dictGet cloud nf.1 then
        some (Op.upload (localDirPath ++ '/' :: nf.1) remote_path nf.1)
      else none)
    let dels := cleanup remote_path cloud (listdir t)
    ([Op.createFolder remote_path, Op.listDir remote_path] ++ dels, ups)

/-- create_folders_first from src/api/api.py, as a function of the os.walk
listing: creates the remote folder for every walked directory whose
sanitized relative path is eligible (the root's relative path is a single
dot, which is never eligible). -/
def create_folders_first : List (List (List Char) × List Char × LTree) → List Op
  | [] => []
  | w :: rest =>
    let rp := sanitizeL (relName w.1)
    (if validate_path rp then [Op.createFolder (some rp)] else []) ++ create_folders_first rest

/-- The loop body of the incremental branch of sync_folder: for every
walked non-root directory whose sanitized relative path is eligible, run
sync_directory, concatenating the operation lists in walk order. -/
def syncSubs (folder : List Char) (remote : Remote) : List (List (List Char) × List Char × LTree) → List Op × List Op
  | [] => ([], [])
  | w :: rest =>
    let r := syncSubs folder remote rest
    let rp := sanitizeL (relName w.1)
    if validate_path rp then
      let d := sync_directory folder remote w.2.1 w.2.2 (some rp)
      (d.1 ++ r.1, d.2 ++ r.2)
    else r

/-- The outcome of one sync_folder pass: the non-upload operations in
order, the queued uploads, and which branch the pass took (true when the
class-level first_run flag was set at entry). -/
structure PassResult where
  ops : List Op
  uploads : List Op
  usedBootstrap : Bool
deriving DecidableEq

/-- sync_folder from src/api/api.py: always synchronizes the root
directory first (create, list, diff, cleanup); then on the first run
creates all eligible remote folders, and on every later run synchronizes
every eligible non-root directory; finally all queued uploads run.  The
second component is the class-level first_run flag after the call, which
the source sets to False unconditionally. -/
def sync_folder (folder : List Char) (remote : Remote) (localFolderPath : List Char) (first_run : Bool) (t : LTree) : PassResult × Bool :=
  let root := sync_directory folder remote localFolderPath t none
  if first_run then
    (⟨root.1 ++ create_folders_first (walkRel [] localFolderPath t), root.2, true⟩, false)
  else
    let subs := syncSubs folder remote (walkRelL [] localFolderPath (dirsOf t))
    (⟨root.1 ++ subs.1, root.2 ++ subs.2, false⟩, false)

/-- The delete operations of an operation list. -/
def deletesOf (ops : List Op) : List Op :=
  ops.filter (fun o => match o with | Op.delete _ _ => true | _ => false)

/-- The createFolder operations of an operation list, by their remote-path
argument. -/
def createRpsOf (ops : List Op) : List (Option (List Char)) :=
  ops.filterMap (fun o => match o with | Op.createFolder rp => some rp | _ => none)

/-- get_file_hash from src/api/api.py as a function of the outcome of
reading the file: on a successful read the md5 hex digest of the streamed
chunks (the digest function is a parameter of the model), on any read
error (permission denied, file vanished, I/O error) the exception is
caught and None is returned instead of raising. -/
def get_file_hash (md5hex : List (List Char) → List Char) (readResult : Except (List Char) (List (List Char))) : Option (List Char) :=
  match readResult with
  | Except.ok chunks => some (md5hex chunks)
  | Except.error _ => none

/-- delete from src/api/api.py as a function of the HTTP status of the
deletion response: True (Success) exactly for statuses 200, 202 and 204,
False (Failed) for every other status. -/
def delete (status : Nat) : Bool :=
  status = 200 || status = 202 || status = 204

/-- The HTTP status with which the remote reports that the resource to
delete is absent. -/
def absentStatus : Nat := 404

/-- A network call the service performs, by the method that issues it. -/
inductive NetCall where
  | putFolder
  | getList
  | getUploadUrl
  | putFile
  | del
deriving DecidableEq

/-- An event in the body of one API method: acquiring the shared
semaphore, releasing it, or performing a network call. -/
inductive Ev where
  | semAcquire
  | semRelease
  | net (c : NetCall)
deriving DecidableEq

/-- The event sequence of create_folder: one PUT request, with no
semaphore acquisition anywhere in the method body. -/
def create_folder_events : List Ev := [Ev.net NetCall.putFolder]

/-- The event sequence of get_info: one GET request, with no semaphore
acquisition anywhere in the method body. -/
def get_info_events : List Ev := [Ev.net NetCall.getList]

/-- The event sequence of upload: the whole body, the upload-URL request
and the file PUT, runs inside the shared semaphore. -/
def upload_events : List Ev :=
  [Ev.semAcquire, Ev.net NetCall.getUploadUrl, Ev.net NetCall.putFile, Ev.semRelease]

/-- The event sequence of delete: the DELETE request runs inside the
shared semaphore. -/
def delete_events : List Ev :=
  [Ev.semAcquire, Ev.net NetCall.del, Ev.semRelease]

/-- Whether every network call of an event sequence happens while the
semaphore is held, tracking the nesting depth of acquisitions. -/
def guardedAux : Nat → List Ev → Bool
  | _, [] => true
  | d, Ev.semAcquire :: r => guardedAux (d + 1) r
  | d, Ev.semRelease :: r => guardedAux (d - 1) r
  | d, Ev.net _ :: r => decide (0 < d) && guardedAux d r

/-- Whether a method's network calls are all limited by the shared
semaphore. -/
def guarded (l : List Ev) : Bool := guardedAux 0 l

/-- The default value of max_concurrent_requests in the constructor of
YandexDiskAPI. -/
def default_max_concurrent_requests : Nat := 55

/-- One YandexDiskAPI instance as constructed by __init__: the sanitized
cloud folder and the semaphore capacity.  The first_run flag is not a
field: in the source it is a class attribute shared by all instances. -/
structure APIInstance where
  folder : List Char
  maxConcurrent : Nat
deriving DecidableEq

/-- The constructor YandexDiskAPI(token, folder): strips trailing slashes
from the folder argument and sanitizes it; the semaphore capacity takes
the default.  A fresh instance is built on every coordinator cycle. -/
def mkInstance (folderArg : List Char) : APIInstance :=
  ⟨sanitizeL (rstripSlash folderArg), default_max_concurrent_requests⟩

/-- sync_files from src/main.py for one cycle: if the local folder is
missing the cycle aborts with the class flag unchanged; otherwise a fresh
YandexDiskAPI instance is constructed and sync_folder runs with the
current class-level first_run flag, which the call leaves set to False. -/
def sync_files (first_run : Bool) (localExists : Bool) (folderArg : List Char) (remote : Remote) (localFolderPath : List Char) (t : LTree) : Option PassResult × Bool :=
  if localExists then
    let api := mkInstance folderArg
    let r := sync_folder api.folder remote localFolderPath first_run t
    (some r.1, r.2)
  else (none, first_run)

/-- The class-level first_run flag after n coordinator cycles, threading
the flag through sync_files while the remote store and the local tree may
change between cycles.  The class attribute is initialized to True. -/
def flagAfter (ex : Nat → Bool) (folderArg : List Char) (remotes : Nat → Remote) (localFolderPath : List Char) (trees : Nat → LTree) : Nat → Bool
  | 0 => true
  | n + 1 => (sync_files (flagAfter ex folderArg remotes localFolderPath trees n) (ex n) folderArg (remotes n) localFolderPath (trees n)).2

/-- The pass result of coordinator cycle n (None when the local folder was
missing on that cycle). -/
def cycleResult (ex : Nat → Bool) (folderArg : List Char) (remotes : Nat → Remote) (localFolderPath : List Char) (trees : Nat → LTree) (n : Nat) : Option PassResult :=
  (sync_files (flagAfter ex folderArg remotes localFolderPath trees n) (ex n) folderArg (remotes n) localFolderPath (trees n)).1

/-- The cloud root folder used in the concrete scenarios. -/
def exFolder : List Char := ("disk").data

/-- The local root path used in the concrete scenarios. -/
def exLocal : List Char := ("local").data

/-- The local tree of the example scenario: a.txt with digest hx at the
root and subdirectory b holding b.txt with digest hy. -/
def exTree : LTree :=
  LTree.node [(("a.txt").data, some ("hx").data)]
    [(("b").data, LTree.node [(("b.txt").data, some ("hy").data)] [])]

/-- The remote store before the first pass of the example scenario: the
root folder exists (the engine has just created it) and is empty; nothing
else exists. -/
def exRemote1 : Remote := fun p =>
  if p = ("disk").data then (200, []) else (404, [])

/-- The remote store before the second pass: the root holds a.txt with
digest hx (uploaded by the first pass) and folder b exists and is empty. -/
def exRemote2 : Remote := fun p =>
  if p = ("disk").data then (200, [⟨("a.txt").data, some ("hx").data, fileTypeName⟩])
  else if p = ("disk/b").data then (200, []) else (404, [])

/-- The remote store before the third pass: both files are in place. -/
def exRemote3 : Remote := fun p =>
  if p = ("disk").data then (200, [⟨("a.txt").data, some ("hx").data, fileTypeName⟩])
  else if p = ("disk/b").data then (200, [⟨("b.txt").data, some ("hy").data, fileTypeName⟩])
  else (404, [])

/-- The local tree of the C1 counterexample scenario: completely empty. -/
def c1Tree : LTree := LTree.node [] []

/-- The remote store of the C1 counterexample scenario: the root folder
exists and holds a file z.txt that does not exist locally. -/
def c1Remote : Remote := fun p =>
  if p = ("disk").data then (200, [⟨("z.txt").data, some ("hz").data, fileTypeName⟩])
  else (404, [])

/-- The local tree of the C4 scenario: a single file f.txt whose hash
computation failed (get_file_hash returned None). -/
def c4Tree : LTree := LTree.node [(("f.txt").data, none)] []

/-- The remote store of the C4 scenario: the root folder holds f.txt with
a present md5 digest. -/
def c4Remote : Remote := fun p =>
  if p = ("disk").data then (200, [⟨("f.txt").data, some ("ab").data, fileTypeName⟩])
  else (404, [])

/-- The remote store of the C3 witness scenario: the root folder holds an
excluded-name file _x.txt absent locally and a file y.txt present
locally. -/
def c3Remote : Remote := fun p =>
  if p = ("disk").data then
    (200, [⟨("_x.txt").data, some ("h1").data, fileTypeName⟩,
           ⟨("y.txt").data, some ("h2").data, fileTypeName⟩])
  else (404, [])

/-- The local tree of the C3 witness scenario: only y.txt exists. -/
def c3Tree : LTree := LTree.node [(("y.txt").data, some ("h2").data)] []

/-- A trivial remote store for the C10 witness: nothing exists. -/
def c10Remote : Remote := fun _ => (404, [])

/-- The remote path contributed by one walked directory when its sanitized
relative path passes the eligibility filter, and nothing otherwise. -/
def eligClause (w : List (List Char) × List Char × LTree) : Option (Option (List Char)) :=
  if validate_path (sanitizeL (relName w.1)) then some (some (sanitizeL (relName w.1))) else none

/-- The eligible sanitized relative paths of the non-root directories of a
local tree, in walk order: exactly the remote paths for which the engine
may create folders or run directory tasks. -/
def eligibleSubRps (lp : List Char) (t : LTree) : List (Option (List Char)) :=
  (walkRelL [] lp (dirsOf t)).filterMap eligClause

/-- Whether an operation respects the eligibility filter: an upload must
carry an eligible file name and an eligible (or root) remote directory
path; other operations are not constrained by this predicate. -/
def uploadOk : Op → Bool
  | Op.upload _ rp name =>
    validate_path name && (match rp with | none => true | some r => validate_path r)
  | _ => true

theorem deletesOf_append (a b : List Op) : deletesOf (a ++ b) = deletesOf a ++ deletesOf b := by
  simp [deletesOf, List.filter_append]

theorem deletesOf_create_folders_first (l : List (List (List Char) × List Char × LTree)) :
    deletesOf (create_folders_first l) = [] := by
  induction l with
  | nil => rfl
  | cons w rest ih =>
    simp only [create_folders_first, deletesOf_append]
    rw [ih]
    by_cases h : validate_path (sanitizeL (relName w.1)) <;> simp [h, deletesOf]

/-- C1: the claim that no delete operation is ever issued during the very
first pass fails: sync_folder runs sync_directory on the root directory,
cleanup included, before checking the first_run flag, so a remote root
file absent locally is deleted already on the bootstrap pass. -/
theorem c1_counterexample :
    (deletesOf (sync_folder exFolder c1Remote exLocal true c1Tree).1.ops = []) = False :=
  eq_false (by decide)

/-- C1 (amended): on the very first pass the only deletes issued are those
of the root directory's own cleanup; no delete is issued for any non-root
directory, because the bootstrap branch only creates folders.  Deletes for
subdirectories therefore occur only from the second pass onward. -/
theorem c1_bootstrap_deletes_root_only (folder lp : List Char) (remote : Remote) (t : LTree) :
    deletesOf (sync_folder folder remote lp true t).1.ops =
      deletesOf (sync_directory folder remote lp t none).1 := by
  simp only [sync_folder, if_true, deletesOf_append, deletesOf_create_folders_first,
    List.append_nil]

/-- C2: the claim that the bootstrap pass issues zero uploads fails on the
example scenario: the root directory is fully diffed even on the first
pass, so a.txt is queued for upload already during bootstrap. -/
theorem c2_counterexample :
    ((sync_folder exFolder exRemote1 exLocal true exTree).1.uploads.length = 0) = False :=
  eq_false (by decide)

/-- C2 (amended): in the example scenario the bootstrap pass performs
exactly two folder creations (the root and b) and one upload (a.txt, since
the root is diffed on the first pass too); the next incremental pass
issues exactly one upload (b.txt) and zero deletes; a third pass with no
local changes issues zero uploads and zero deletes. -/
theorem c2_scenario_operation_counts :
    createRpsOf (sync_folder exFolder exRemote1 exLocal true exTree).1.ops =
        [none, some (("b").data)] ∧
      (sync_folder exFolder exRemote1 exLocal true exTree).1.uploads =
        [Op.upload (("local/a.txt").data) none (("a.txt").data)] ∧
      (sync_folder exFolder exRemote2 exLocal false exTree).1.uploads =
        [Op.upload (("local/b/b.txt").data) (some (("b").data)) (("b.txt").data)] ∧
      deletesOf (sync_folder exFolder exRemote2 exLocal false exTree).1.ops = [] ∧
      (sync_folder exFolder exRemote3 exLocal false exTree).1.uploads = [] ∧
      deletesOf (sync_folder exFolder exRemote3 exLocal false exTree).1.ops = [] := by
  refine ⟨by decide, by decide, by decide, by decide, by decide, by decide⟩

/-- C5: the claim that deleting a non-existent remote path still reports
Success fails: the remote answers 404 for an absent resource and delete
treats only the statuses 200, 202 and 204 as Success. -/
theorem c5_counterexample : (delete absentStatus = true) = False :=
  eq_false (by decide)

/-- C5 (amended): delete reports Success exactly for the HTTP statuses
200, 202 and 204; in particular deleting a path that does not exist on the
remote (status 404) reports Failed, not Success. -/
theorem c5_delete_success_statuses :
    (∀ s, delete s = true ↔ (s = 200 ∨ s = 202 ∨ s = 204)) ∧ delete absentStatus = false := by
  constructor
  · intro s
    simp [delete, or_assoc]
  · decide

/-- C6: the claim that the listing operation reports not-found distinctly
from a generic failure fails: get_info raises the same FileNotFoundError
for every non-200 status, so a 404 and a 500 response produce identical
outcomes for the caller. -/
theorem c6_counterexample : (get_info 404 [] ≠ get_info 500 []) = False :=
  eq_false (by decide)

/-- C6 (amended): get_info returns the file mapping only on status 200 and
reports every other status, structural absence and transient server
failure alike, by the one uniform FileNotFoundError outcome; the caller
cannot distinguish the two. -/
theorem c6_get_info_uniform_failure (s : Nat) (items : List Item) (h : s ≠ 200) :
    get_info s items = none := by
  simp [get_info, h]

theorem c6_get_info_uniform_failure_witness :
    (500 ≠ 200) ∧ get_info 500 [] = none :=
  ⟨by decide, c6_get_info_uniform_failure 500 [] (by decide)⟩

/-- C9: the claim that the single shared limiter covers directory
creation, listing, upload and delete calls combined fails: the semaphore
is acquired only in upload and delete, and the network calls of
create_folder and get_info run outside any semaphore section. -/
theorem c9_counterexample :
    ((guarded create_folder_events && guarded get_info_events &&
        guarded upload_events && guarded delete_events) = true) = False :=
  eq_false (by decide)

/-- C9 (amended): the shared semaphore (default capacity 55) bounds only
upload and delete, whose network calls all run while it is held; the
network calls of create_folder and get_info are not limited by it. -/
theorem c9_semaphore_coverage :
    guarded upload_events = true ∧ guarded delete_events = true ∧
      guarded create_folder_events = false ∧ guarded get_info_events = false ∧
      default_max_concurrent_requests = 55 := by
  decide

theorem deletesOf_map_delete (rp : Option (List Char)) (ns : List (List Char)) :
    deletesOf (ns.map (fun n => Op.delete rp n)) = ns.map (fun n => Op.delete rp n) := by
  induction ns with
  | nil => rfl
  | cons n rest ih => simp [deletesOf]

/-- C3: for a directory whose cloud listing succeeds, the delete
operations issued by sync_directory are exactly one per cloud file name
absent from the raw local directory listing (files and subdirectories
together, with the eligibility filter not reapplied on either side). -/
theorem c3_deletion_rule (folder lp : List Char) (remote : Remote) (t : LTree)
    (rp : Option (List Char)) (cloud : List (List Char × Option (List Char)))
    (h : get_info (remote (get_full_path folder rp none)).1
        (remote (get_full_path folder rp none)).2 = some cloud) :
    deletesOf (sync_directory folder remote lp t rp).1 =
      ((cloud.map (fun kv => kv.1)).filter (fun n => !((listdir t).contains n))).map
        (fun n => Op.delete rp n) := by
  simp only [sync_directory]
  rw [h]
  simp only [deletesOf_append, cleanup, deletesOf_map_delete]
  simp [deletesOf]

theorem c3_deletion_rule_witness :
    get_info (c3Remote (get_full_path exFolder none none)).1
        (c3Remote (get_full_path exFolder none none)).2 =
      some [(("_x.txt").data, some (("h1").data)), (("y.txt").data, some (("h2").data))] ∧
    deletesOf (sync_directory exFolder c3Remote exLocal c3Tree none).1 =
      (([(("_x.txt").data, some (("h1").data)), (("y.txt").data, some (("h2").data))].map
          (fun kv => kv.1)).filter (fun n => !((listdir c3Tree).contains n))).map
        (fun n => Op.delete none n) ∧
    Op.delete none (("_x.txt").data) ∈ deletesOf (sync_directory exFolder c3Remote exLocal c3Tree none).1 :=
  ⟨by decide, c3_deletion_rule exFolder exLocal c3Remote c3Tree none _ (by decide), by decide⟩

/-- C4: the claim that a file whose fingerprint computation failed is
neither uploaded nor compared fails: the None hash is compared against the
cloud digest, and since a present digest differs from None the file is
queued for upload. -/
theorem c4_counterexample :
    ((sync_directory exFolder c4Remote exLocal c4Tree none).2 = []) = False :=
  eq_false (by decide)

/-- C4 (amended): get_file_hash returns None instead of raising when the
file cannot be read; the comparison for such a file then proceeds with
None as the local hash, so the file is queued for upload exactly when the
cloud holds a present digest under that name, and is treated as already
synchronized (skipped) exactly when the cloud entry is absent or has a
None digest. -/
theorem c4_failed_fingerprint_behavior :
    (∀ (md5hex : List (List Char) → List Char) (e : List Char),
        get_file_hash md5hex (Except.error e) = none) ∧
      ∀ (folder lp f : List Char) (remote : Remote)
        (cloud : List (List Char × Option (List Char))),
        validate_path f = true →
        get_info (remote (get_full_path folder none none)).1
            (remote (get_full_path folder none none)).2 = some cloud →
        (sync_directory folder remote lp (LTree.node [(f, none)] []) none).2 =
          (if dictGet cloud f = none then [] else [Op.upload (lp ++ '/' :: f) none f]) := by
  constructor
  · intro md5hex e
    rfl
  · intro folder lp f remote cloud hv h
    simp only [sync_directory]
    rw [h]
    simp only [filesOf, List.filter_cons, hv, List.filter_nil, List.filterMap]
    cases hd : dictGet cloud f <;> simp [hd]

theorem c4_failed_fingerprint_behavior_witness :
    validate_path (("f.txt").data) = true ∧
      get_info (c4Remote (get_full_path exFolder none none)).1
          (c4Remote (get_full_path exFolder none none)).2 =
        some [(("f.txt").data, some (("ab").data))] ∧
      (sync_directory exFolder c4Remote exLocal c4Tree none).2 =
        (if dictGet [(("f.txt").data, some (("ab").data))] (("f.txt").data) = none then []
          else [Op.upload (exLocal ++ '/' :: (("f.txt").data)) none (("f.txt").data)]) :=
  ⟨by decide, by decide,
    c4_failed_fingerprint_behavior.2 exFolder exLocal _ c4Remote _ (by decide) (by decide)⟩

theorem sync_folder_snd (folder lp : List Char) (remote : Remote) (fr : Bool) (t : LTree) :
    (sync_folder folder remote lp fr t).2 = false := by
  cases fr <;> simp [sync_folder]

theorem sync_folder_usedBootstrap (folder lp : List Char) (remote : Remote) (fr : Bool) (t : LTree) :
    (sync_folder folder remote lp fr t).1.usedBootstrap = fr := by
  cases fr <;> simp [sync_folder]

theorem sync_files_snd_false (localExists : Bool) (folderArg lp : List Char)
    (remote : Remote) (t : LTree) :
    (sync_files false localExists folderArg remote lp t).2 = false := by
  cases localExists <;> simp [sync_files, sync_folder_snd]

theorem flagAfter_false_of_ran (ex : Nat → Bool) (folderArg lp : List Char)
    (remotes : Nat → Remote) (trees : Nat → LTree) (m : Nat) (hm : ex m = true) :
    ∀ n, m < n → flagAfter ex folderArg remotes lp trees n = false := by
  intro n
  induction n with
  | zero => intro h; exact absurd h (Nat.not_lt_zero m)
  | succ k ih =>
    intro hk
    by_cases hmk : m < k
    · have hflag := ih hmk
      simp only [flagAfter, hflag]
      exact sync_files_snd_false _ _ _ _ _
    · have hkm : k = m := by omega
      subst hkm
      simp only [flagAfter, hm]
      simp [sync_files, sync_folder_snd]

/-- C10: the first_run flag lives on the class, so it survives the fresh
YandexDiskAPI instance the coordinator constructs each cycle; once any
cycle has actually run sync_folder (the local folder existed), every later
cycle's pass takes the incremental branch, never the bootstrap branch. -/
theorem c10_first_run_class_flag (ex : Nat → Bool) (folderArg lp : List Char)
    (remotes : Nat → Remote) (trees : Nat → LTree) (m n : Nat)
    (hm : ex m = true) (hn : m < n) :
    ((cycleResult ex folderArg remotes lp trees n).map PassResult.usedBootstrap).getD false = false := by
  have hf := flagAfter_false_of_ran ex folderArg lp remotes trees m hm n hn
  unfold cycleResult
  rw [hf]
  cases hex : ex n <;> simp [sync_files, hex, sync_folder_usedBootstrap]

theorem c10_first_run_class_flag_witness :
    (fun _ : Nat => true) 0 = true ∧ (0 : Nat) < 1 ∧
      (cycleResult (fun _ => true) exFolder (fun _ => c10Remote) exLocal (fun _ => c1Tree) 1).isSome = true ∧
      ((cycleResult (fun _ => true) exFolder (fun _ => c10Remote) exLocal
          (fun _ => c1Tree) 1).map PassResult.usedBootstrap).getD false = false :=
  ⟨rfl, by decide, by decide,
    c10_first_run_class_flag (fun _ => true) exFolder exLocal (fun _ => c10Remote)
      (fun _ => c1Tree) 0 1 rfl (by decide)⟩

theorem createRpsOf_append (a b : List Op) :
    createRpsOf (a ++ b) = createRpsOf a ++ createRpsOf b := by
  simp [createRpsOf, List.filterMap_append]

theorem createRpsOf_cleanup (rp : Option (List Char))
    (cloud : List (List Char × Option (List Char))) (ls : List (List Char)) :
    createRpsOf (cleanup rp cloud ls) = [] := by
  unfold cleanup
  induction (cloud.map (fun kv => kv.1)).filter (fun n => !(ls.contains n)) with
  | nil => rfl
  | cons n rest ih => simp [createRpsOf]

theorem sync_directory_createRps (folder lp : List Char) (remote : Remote) (t : LTree)
    (rp : Option (List Char)) :
    createRpsOf (sync_directory folder remote lp t rp).1 = [rp] := by
  simp only [sync_directory]
  cases hgi : get_info (remote (get_full_path folder rp none)).1
      (remote (get_full_path folder rp none)).2 with
  | none => simp [hgi, createRpsOf]
  | some cloud =>
    simp only [hgi]
    rw [createRpsOf_append, createRpsOf_cleanup]
    rfl

theorem sync_directory_uploads_shape (folder lp : List Char) (remote : Remote) (t : LTree)
    (rp : Option (List Char)) :
    ∀ o ∈ (sync_directory folder remote lp t rp).2,
      ∃ lpth n, o = Op.upload lpth rp n ∧ validate_path n = true := by
  simp only [sync_directory]
  cases hgi : get_info (remote (get_full_path folder rp none)).1
      (remote (get_full_path folder rp none)).2 with
  | none =>
    simp [hgi]
  | some cloud =>
    simp only [hgi]
    intro o ho
    simp only [List.mem_filterMap] at ho
    obtain ⟨nf, hnf, hg⟩ := ho
    have hval : validate_path nf.1 = true := (List.mem_filter.mp hnf).2
    by_cases hcmp : nf.2 ≠ dictGet cloud nf.1
    · rw [if_pos hcmp] at hg
      exact ⟨lp ++ '/' :: nf.1, nf.1, (Option.some.inj hg).symm, hval⟩
    · rw [if_neg hcmp] at hg
      exact Option.noConfusion hg

theorem createRpsOf_create_folders_first (l : List (List (List Char) × List Char × LTree)) :
    createRpsOf (create_folders_first l) = l.filterMap eligClause := by
  induction l with
  | nil => rfl
  | cons w rest ih =>
    by_cases h : validate_path (sanitizeL (relName w.1))
    · simp only [create_folders_first, createRpsOf_append, ih, List.filterMap_cons, eligClause,
        if_pos h]
      rfl
    · simp only [create_folders_first, createRpsOf_append, ih, List.filterMap_cons, eligClause,
        if_neg h]
      rfl

theorem syncSubs_createRps (folder : List Char) (remote : Remote)
    (l : List (List (List Char) × List Char × LTree)) :
    createRpsOf (syncSubs folder remote l).1 = l.filterMap eligClause := by
  induction l with
  | nil => rfl
  | cons w rest ih =>
    simp only [syncSubs, List.filterMap_cons, eligClause]
    by_cases h : validate_path (sanitizeL (relName w.1))
    · simp [h, createRpsOf_append, sync_directory_createRps, ih]
    · simp [h, ih]

theorem syncSubs_uploads_ok (folder : List Char) (remote : Remote)
    (l : List (List (List Char) × List Char × LTree)) :
    ∀ o ∈ (syncSubs folder remote l).2, uploadOk o = true := by
  induction l with
  | nil =>
    intro o ho
    exact absurd ho (List.not_mem_nil o)
  | cons w rest ih =>
    simp only [syncSubs]
    by_cases h : validate_path (sanitizeL (relName w.1))
    · simp only [h, if_true]
      intro o ho
      rw [List.mem_append] at ho
      cases ho with
      | inl hd =>
        obtain ⟨lpth, n, rfl, hval⟩ :=
          sync_directory_uploads_shape folder w.2.1 remote w.2.2 (some (sanitizeL (relName w.1))) o hd
        simp [uploadOk, hval, h]
      | inr hr => exact ih o hr
    · simp only [h, if_false]
      exact ih

theorem walkRel_eq (segs : List (List Char)) (p : List Char) (t : LTree) :
    walkRel segs p t = (segs, p, t) :: walkRelL segs p (dirsOf t) := by
  cases t
  rfl

theorem eligClause_root (p : List Char) (t : LTree) : eligClause ([], p, t) = none := by
  simp only [eligClause]
  decide

/-- C8: the eligibility filter governs every folder creation and every
upload in both branches: the createFolder calls of any pass are exactly
one for the root plus one for each walked non-root directory whose
sanitized relative path passes validate_path, and every queued upload
carries a file name passing validate_path inside the root or inside such
an eligible directory.  Hence a path with a segment starting with a dot,
an underscore or the reserved name, or containing an ampersand, never
triggers directory creation and is never uploaded, on the bootstrap pass
and on incremental passes alike. -/
theorem c8_eligibility_filter (folder lp : List Char) (remote : Remote) (fr : Bool) (t : LTree) :
    createRpsOf (sync_folder folder remote lp fr t).1.ops = none :: eligibleSubRps lp t ∧
      (sync_folder folder remote lp fr t).1.uploads.all uploadOk = true := by
  cases fr with
  | true =>
    constructor
    · simp only [sync_folder, if_true, createRpsOf_append, sync_directory_createRps,
        createRpsOf_create_folders_first, walkRel_eq, List.filterMap_cons, eligClause_root,
        eligibleSubRps]
      rfl
    · simp only [sync_folder, if_true]
      rw [List.all_eq_true]
      intro o ho
      obtain ⟨lpth, n, rfl, hval⟩ :=
        sync_directory_uploads_shape folder lp remote t none o ho
      simp [uploadOk, hval]
  | false =>
    constructor
    · simp only [sync_folder, Bool.false_eq_true, if_false, createRpsOf_append,
        sync_directory_createRps, syncSubs_createRps, eligibleSubRps]
      rfl
    · simp only [sync_folder, Bool.false_eq_true, if_false]
      rw [List.all_eq_true]
      intro o ho
      rw [List.mem_append] at ho
      cases ho with
      | inl hd =>
        obtain ⟨lpth, n, rfl, hval⟩ :=
          sync_directory_uploads_shape folder lp remote t none o hd
        simp [uploadOk, hval]
      | inr hr => exact syncSubs_uploads_ok folder remote _ o hr

theorem splitSlashA_slash (cs : List Char) :
    splitSlashA ('/' :: cs) = ([], (splitSlashA cs).1 :: (splitSlashA cs).2) := by
  simp [splitSlashA]

theorem splitSlashA_cons (c : Char) (cs : List Char) (h : c ≠ '/') :
    splitSlashA (c :: cs) = (c :: (splitSlashA cs).1, (splitSlashA cs).2) := by
  simp [splitSlashA, h]

theorem splitSlash_slash (cs : List Char) : splitSlash ('/' :: cs) = [] :: splitSlash cs := by
  rw [splitSlash, splitSlashA_slash]
  rfl

theorem splitSlashA_no_slash (s : List Char) :
    '/' ∉ (splitSlashA s).1 ∧ ∀ x ∈ (splitSlashA s).2, '/' ∉ x := by
  induction s with
  | nil => simp [splitSlashA]
  | cons c cs ih =>
    by_cases h : c = '/'
    · subst h
      rw [splitSlashA_slash]
      refine ⟨by simp, ?_⟩
      intro x hx
      rcases List.mem_cons.mp hx with rfl | hx
      · exact ih.1
      · exact ih.2 x hx
    · rw [splitSlashA_cons c cs h]
      refine ⟨?_, ih.2⟩
      intro hx
      rcases List.mem_cons.mp hx with he | hx
      · exact h he.symm
      · exact ih.1 hx

theorem splitSlash_no_slash (s : List Char) : ∀ x ∈ splitSlash s, '/' ∉ x := by
  intro x hx
  rcases List.mem_cons.mp hx with rfl | hx
  · exact (splitSlashA_no_slash s).1
  · exact (splitSlashA_no_slash s).2 x hx

theorem splitSlashA_chars (s : List Char) :
    (∀ c ∈ (splitSlashA s).1, c ∈ s) ∧ ∀ x ∈ (splitSlashA s).2, ∀ c ∈ x, c ∈ s := by
  induction s with
  | nil => simp [splitSlashA]
  | cons a cs ih =>
    by_cases h : a = '/'
    · subst h
      rw [splitSlashA_slash]
      refine ⟨by simp, ?_⟩
      intro x hx c hc
      rcases List.mem_cons.mp hx with rfl | hx
      · exact List.mem_cons_of_mem _ (ih.1 c hc)
      · exact List.mem_cons_of_mem _ (ih.2 x hx c hc)
    · rw [splitSlashA_cons a cs h]
      constructor
      · intro c hc
        rcases List.mem_cons.mp hc with rfl | hc
        · exact List.mem_cons_self _ _
        · exact List.mem_cons_of_mem _ (ih.1 c hc)
      · intro x hx c hc
        exact List.mem_cons_of_mem _ (ih.2 x hx c hc)

theorem splitSlash_chars (s : List Char) : ∀ x ∈ splitSlash s, ∀ c ∈ x, c ∈ s := by
  intro x hx
  rcases List.mem_cons.mp hx with rfl | hx
  · exact (splitSlashA_chars s).1
  · exact (splitSlashA_chars s).2 x hx

theorem splitSlashA_no_slash_id (x : List Char) (h : '/' ∉ x) : splitSlashA x = (x, []) := by
  induction x with
  | nil => rfl
  | cons c cs ih =>
    have hc : c ≠ '/' := fun e => h (e ▸ List.mem_cons_self c cs)
    rw [splitSlashA_cons c cs hc, ih (fun hm => h (List.mem_cons_of_mem _ hm))]

theorem splitSlashA_append_slash (x r : List Char) (h : '/' ∉ x) :
    splitSlashA (x ++ '/' :: r) = (x, splitSlash r) := by
  induction x with
  | nil =>
    rw [List.nil_append, splitSlashA_slash]
    rfl
  | cons c cs ih =>
    have hc : c ≠ '/' := fun e => h (e ▸ List.mem_cons_self c cs)
    rw [List.cons_append, splitSlashA_cons _ _ hc, ih (fun hm => h (List.mem_cons_of_mem _ hm))]

theorem splitSlash_join (comps : List (List Char)) (hne : comps ≠ [])
    (hsf : ∀ x ∈ comps, '/' ∉ x) : splitSlash (joinSlash comps) = comps := by
  induction comps with
  | nil => exact absurd rfl hne
  | cons x rest ih =>
    cases rest with
    | nil =>
      rw [joinSlash, splitSlash, splitSlashA_no_slash_id x (hsf x (List.mem_cons_self x []))]
    | cons y r =>
      rw [joinSlash, splitSlash, splitSlashA_append_slash x _ (hsf x (List.mem_cons_self _ _))]
      rw [ih (List.cons_ne_nil y r) (fun z hz => hsf z (List.mem_cons_of_mem _ hz))]

theorem joinSlash_cons_head (ch : Char) (x : List Char) (r : List (List Char)) :
    ∃ w, joinSlash ((ch :: x) :: r) = ch :: w := by
  cases r with
  | nil => exact ⟨x, rfl⟩
  | cons y s => exact ⟨x ++ '/' :: joinSlash (y :: s), rfl⟩

theorem mem_joinSlash (comps : List (List Char)) (c : Char) (h : c ∈ joinSlash comps) :
    c = '/' ∨ ∃ x ∈ comps, c ∈ x := by
  induction comps with
  | nil => exact absurd h (List.not_mem_nil c)
  | cons x r ih =>
    cases r with
    | nil => exact Or.inr ⟨x, List.mem_cons_self x [], h⟩
    | cons y s =>
      rw [joinSlash] at h
      rcases List.mem_append.mp h with hx | hr
      · exact Or.inr ⟨x, List.mem_cons_self _ _, hx⟩
      · rcases List.mem_cons.mp hr with rfl | hr
        · exact Or.inl rfl
        · rcases ih hr with hc | ⟨z, hz, hcz⟩
          · exact Or.inl hc
          · exact Or.inr ⟨z, List.mem_cons_of_mem _ hz, hcz⟩

theorem normStep_skip (initS : Nat) (acc : List (List Char)) (comp : List Char)
    (h : comp = [] ∨ comp = ['.']) : normStep initS acc comp = acc := by
  simp only [normStep, if_pos h]

theorem normStep_normal (initS : Nat) (acc : List (List Char)) (comp : List Char)
    (h1 : ¬(comp = [] ∨ comp = ['.'])) (h2 : comp ≠ pardir) :
    normStep initS acc comp = comp :: acc := by
  simp only [normStep, if_neg h1, if_neg h2]

theorem normStep_pardir_nil (initS : Nat) :
    normStep initS [] pardir = if initS = 0 then [pardir] else [] := by
  simp only [normStep, if_neg (by decide : ¬(pardir = [] ∨ pardir = ['.'])), if_pos rfl]
  simp

theorem normStep_pardir_cons (initS : Nat) (c : List Char) (tl : List (List Char)) :
    normStep initS (c :: tl) pardir = if c = pardir then pardir :: c :: tl else tl := by
  simp only [normStep, if_neg (by decide : ¬(pardir = [] ∨ pardir = ['.'])), if_pos rfl]
  simp

theorem goodAcc_normStep (initS : Nat) (acc : List (List Char)) (comp : List Char)
    (h : GoodAcc initS acc) : GoodAcc initS (normStep initS acc comp) := by
  obtain ⟨front, k, rfl, hfront, hk⟩ := h
  by_cases h1 : comp = [] ∨ comp = ['.']
  · rw [normStep_skip _ _ _ h1]
    exact ⟨front, k, rfl, hfront, hk⟩
  · by_cases h2 : comp = pardir
    · subst h2
      cases front with
      | cons f front' =>
        have hf : isNormSeg f := hfront f (List.mem_cons_self _ _)
        rw [List.cons_append, normStep_pardir_cons, if_neg hf.2.2]
        exact ⟨front', k, rfl, fun x hx => hfront x (List.mem_cons_of_mem _ hx), hk⟩
      | nil =>
        cases k with
        | zero =>
          rw [List.replicate_zero, List.nil_append, normStep_pardir_nil]
          by_cases h0 : initS = 0
          · rw [if_pos h0]
            exact ⟨[], 1, rfl, by simp, fun hh => absurd h0 hh⟩
          · rw [if_neg h0]
            exact ⟨[], 0, rfl, by simp, fun _ => rfl⟩
        | succ j =>
          rw [List.nil_append, List.replicate_succ, normStep_pardir_cons, if_pos rfl]
          refine ⟨[], j + 2, ?_, by simp, ?_⟩
          · rw [List.nil_append, List.replicate_succ, List.replicate_succ]
          · intro hh
            exact absurd (hk hh) (Nat.succ_ne_zero j)
    · rw [normStep_normal _ _ _ h1 h2]
      rcases not_or.mp h1 with ⟨hne, hnd⟩
      exact ⟨comp :: front, k, rfl, by
        intro x hx
        rcases List.mem_cons.mp hx with rfl | hx
        · exact ⟨hne, hnd, h2⟩
        · exact hfront x hx, hk⟩

theorem goodAcc_foldl (initS : Nat) (comps : List (List Char)) :
    ∀ acc, GoodAcc initS acc → GoodAcc initS (comps.foldl (normStep initS) acc) := by
  induction comps with
  | nil => intro acc h; exact h
  | cons c r ih =>
    intro acc h
    rw [List.foldl_cons]
    exact ih _ (goodAcc_normStep initS acc c h)

theorem goodComps_normComps (initS : Nat) (comps : List (List Char)) :
    GoodComps initS (normComps initS comps) := by
  obtain ⟨front, k, heq, hfront, hk⟩ :=
    goodAcc_foldl initS comps [] ⟨[], 0, rfl, by simp, fun _ => rfl⟩
  refine ⟨k, front.reverse, ?_, ?_, hk⟩
  · rw [normComps, heq, List.reverse_append, List.reverse_replicate]
  · intro x hx
    exact hfront x (List.mem_reverse.mp hx)

theorem foldl_normStep_replicate (m : Nat) :
    ∀ j, (List.replicate m pardir).foldl (normStep 0) (List.replicate j pardir) =
      List.replicate (j + m) pardir := by
  induction m with
  | zero => intro j; simp
  | succ m ih =>
    intro j
    rw [List.replicate_succ, List.foldl_cons]
    have hstep : normStep 0 (List.replicate j pardir) pardir = List.replicate (j + 1) pardir := by
      cases j with
      | zero =>
        rw [List.replicate_zero, normStep_pardir_nil, if_pos rfl]
        rfl
      | succ i =>
        rw [List.replicate_succ, normStep_pardir_cons, if_pos rfl, ← List.replicate_succ,
          ← List.replicate_succ]
    rw [hstep, ih (j + 1)]
    congr 1
    omega

theorem foldl_normStep_normal (initS : Nat) (rest : List (List Char)) :
    ∀ acc, (∀ x ∈ rest, isNormSeg x) →
      rest.foldl (normStep initS) acc = rest.reverse ++ acc := by
  induction rest with
  | nil => intro acc _; simp
  | cons x r ih =>
    intro acc h
    have hx : isNormSeg x := h x (List.mem_cons_self _ _)
    rw [List.foldl_cons, normStep_normal initS acc x (not_or.mpr ⟨hx.1, hx.2.1⟩) hx.2.2,
      ih _ (fun y hy => h y (List.mem_cons_of_mem _ hy))]
    simp

theorem normComps_good (initS : Nat) (l : List (List Char)) (h : GoodComps initS l) :
    normComps initS l = l := by
  obtain ⟨k, rest, rfl, hrest, hk⟩ := h
  by_cases h0 : initS = 0
  · subst h0
    rw [normComps, List.foldl_append]
    have h1 : (List.replicate k pardir).foldl (normStep 0) [] = List.replicate k pardir := by
      have := foldl_normStep_replicate k 0
      simpa using this
    rw [h1, foldl_normStep_normal 0 rest _ hrest, List.reverse_append, List.reverse_reverse,
      List.reverse_replicate]
  · rw [hk h0, List.replicate_zero, List.nil_append] at *
    rw [normComps, foldl_normStep_normal initS rest [] hrest]
    simp

theorem mem_normStep (initS : Nat) (acc : List (List Char)) (c x : List Char)
    (h : x ∈ normStep initS acc c) : x ∈ acc ∨ x = pardir ∨ x = c := by
  by_cases h1 : c = [] ∨ c = ['.']
  · rw [normStep_skip _ _ _ h1] at h
    exact Or.inl h
  · by_cases h2 : c = pardir
    · subst h2
      cases acc with
      | nil =>
        rw [normStep_pardir_nil] at h
        by_cases h0 : initS = 0
        · rw [if_pos h0] at h
          rcases List.mem_cons.mp h with rfl | h
          · exact Or.inr (Or.inl rfl)
          · exact absurd h (List.not_mem_nil x)
        · rw [if_neg h0] at h
          exact absurd h (List.not_mem_nil x)
      | cons a tl =>
        rw [normStep_pardir_cons] at h
        by_cases ha : a = pardir
        · rw [if_pos ha] at h
          rcases List.mem_cons.mp h with rfl | h
          · exact Or.inr (Or.inl rfl)
          · exact Or.inl h
        · rw [if_neg ha] at h
          exact Or.inl (List.mem_cons_of_mem _ h)
    · rw [normStep_normal _ _ _ h1 h2] at h
      rcases List.mem_cons.mp h with rfl | h
      · exact Or.inr (Or.inr rfl)
      · exact Or.inl h

theorem mem_foldl_normStep (initS : Nat) (l : List (List Char)) :
    ∀ acc x, x ∈ l.foldl (normStep initS) acc → x ∈ acc ∨ x = pardir ∨ x ∈ l := by
  induction l with
  | nil => intro acc x h; exact Or.inl h
  | cons c r ih =>
    intro acc x h
    rw [List.foldl_cons] at h
    rcases ih (normStep initS acc c) x h with hacc | hp | hl
    · rcases mem_normStep initS acc c x hacc with h' | h' | h'
      · exact Or.inl h'
      · exact Or.inr (Or.inl h')
      · exact Or.inr (Or.inr (h' ▸ List.mem_cons_self c r))
    · exact Or.inr (Or.inl hp)
    · exact Or.inr (Or.inr (List.mem_cons_of_mem _ hl))

theorem mem_normComps (initS : Nat) (comps : List (List Char)) (x : List Char)
    (h : x ∈ normComps initS comps) : x = pardir ∨ x ∈ comps := by
  rw [normComps, List.mem_reverse] at h
  rcases mem_foldl_normStep initS comps [] x h with h' | h'
  · exact absurd h' (List.not_mem_nil x)
  · exact h'

theorem normComps_splitSlash_no_slash (initS : Nat) (p : List Char) :
    ∀ x ∈ normComps initS (splitSlash p), '/' ∉ x := by
  intro x hx
  rcases mem_normComps initS _ x hx with rfl | h
  · decide
  · exact splitSlash_no_slash p x h

theorem goodComps_ne_nil_mem (initS : Nat) (l : List (List Char)) (h : GoodComps initS l) :
    ∀ x ∈ l, x ≠ [] := by
  obtain ⟨k, rest, rfl, hrest, -⟩ := h
  intro x hx
  rcases List.mem_append.mp hx with h1 | h2
  · rw [List.eq_of_mem_replicate h1]
    decide
  · exact (hrest x h2).1

theorem initSlashes_le_two (p : List Char) : initSlashes p ≤ 2 := by
  rw [initSlashes]
  split
  · omega
  · split <;> omega

theorem initSlashes_cons_ne (c : Char) (r : List Char) (h : c ≠ '/') :
    initSlashes (c :: r) = 0 := by
  rw [initSlashes, if_pos]
  intro he
  have : c = '/' := by simpa using he
  exact h this

theorem initSlashes_one (c : Char) (r : List Char) (h : c ≠ '/') :
    initSlashes ('/' :: c :: r) = 1 := by
  rw [initSlashes, if_neg, if_neg]
  · rintro ⟨h2, -⟩
    have : c = '/' := by simpa using h2
    exact h this
  · intro hne
    exact hne (by simp)

theorem initSlashes_two (c : Char) (r : List Char) (h : c ≠ '/') :
    initSlashes ('/' :: '/' :: c :: r) = 2 := by
  rw [initSlashes, if_neg, if_pos]
  · refine ⟨by simp, ?_⟩
    intro h3
    have : c = '/' := by simpa using h3
    exact h this
  · intro hne
    exact hne (by simp)

theorem mem_normpathL (p : List Char) (c : Char) (h : c ∈ normpathL p) :
    c = '.' ∨ c = '/' ∨ c ∈ p := by
  rw [normpathL] at h
  by_cases hp : p = []
  · rw [if_pos hp] at h
    rcases List.mem_cons.mp h with rfl | h
    · exact Or.inl rfl
    · exact absurd h (List.not_mem_nil c)
  · rw [if_neg hp] at h
    by_cases hres : List.replicate (initSlashes p) '/' ++
        joinSlash (normComps (initSlashes p) (splitSlash p)) = []
    · rw [if_pos hres] at h
      rcases List.mem_cons.mp h with rfl | h
      · exact Or.inl rfl
      · exact absurd h (List.not_mem_nil c)
    · rw [if_neg hres] at h
      rcases List.mem_append.mp h with h1 | h2
      · exact Or.inr (Or.inl (List.eq_of_mem_replicate h1))
      · rcases mem_joinSlash _ c h2 with rfl | ⟨x, hx, hcx⟩
        · exact Or.inr (Or.inl rfl)
        · rcases mem_normComps _ _ x hx with rfl | hxs
          · rcases List.mem_cons.mp hcx with rfl | hcx'
            · exact Or.inl rfl
            · rcases List.mem_cons.mp hcx' with rfl | hcx''
              · exact Or.inl rfl
              · exact absurd hcx'' (List.not_mem_nil c)
          · exact Or.inr (Or.inr (splitSlash_chars p x hxs c hcx))

theorem no_backslash_normpathL (p : List Char) (h : '\\' ∉ p) : '\\' ∉ normpathL p := by
  intro hmem
  rcases mem_normpathL p '\\' hmem with h1 | h1 | h1
  · exact absurd h1 (by decide)
  · exact absurd h1 (by decide)
  · exact h h1

theorem map_slashrepl_id (s : List Char) (h : '\\' ∉ s) :
    s.map (fun c => if c = '\\' then '/' else c) = s := by
  induction s with
  | nil => rfl
  | cons c cs ih =>
    have hc : c ≠ '\\' := fun e => h (e ▸ List.mem_cons_self c cs)
    simp only [List.map_cons, if_neg hc, ih (fun hm => h (List.mem_cons_of_mem _ hm))]

theorem normComps_cons_empty (initS : Nat) (l : List (List Char)) :
    normComps initS ([] :: l) = normComps initS l := by
  rw [normComps, List.foldl_cons, normStep_skip _ _ _ (Or.inl rfl)]
  rfl

theorem normpathL_fix (iS : Nat) (comps : List (List Char)) (hiS : iS ≤ 2)
    (hG : GoodComps iS comps) (hsf : ∀ x ∈ comps, '/' ∉ x) (hne : comps ≠ []) :
    normpathL (List.replicate iS '/' ++ joinSlash comps) =
      List.replicate iS '/' ++ joinSlash comps := by
  obtain ⟨c0, cr, rfl⟩ := List.exists_cons_of_ne_nil hne
  obtain ⟨ch, c0', rfl⟩ :=
    List.exists_cons_of_ne_nil (goodComps_ne_nil_mem iS _ hG _ (List.mem_cons_self _ _))
  have hch : ch ≠ '/' := by
    intro e
    subst e
    exact hsf _ (List.mem_cons_self _ _) (List.mem_cons_self _ _)
  obtain ⟨w, hw⟩ := joinSlash_cons_head ch c0' cr
  interval_cases iS
  · rw [List.replicate_zero, List.nil_append, hw, normpathL, if_neg (List.cons_ne_nil ch w),
      initSlashes_cons_ne ch w hch, List.replicate_zero, List.nil_append, ← hw,
      splitSlash_join _ (List.cons_ne_nil _ _) hsf, normComps_good 0 _ hG, hw,
      if_neg (List.cons_ne_nil ch w)]
  · rw [show List.replicate 1 '/' = ['/'] from rfl, List.singleton_append, hw, normpathL,
      if_neg (List.cons_ne_nil _ _), initSlashes_one ch w hch,
      show List.replicate 1 '/' = ['/'] from rfl, List.singleton_append, splitSlash_slash,
      ← hw, splitSlash_join _ (List.cons_ne_nil _ _) hsf, normComps_cons_empty,
      normComps_good 1 _ hG, hw, if_neg (List.cons_ne_nil _ _)]
  · have e2 : (List.replicate 2 '/' : List Char) = ['/', '/'] := rfl
    have e3 : (['/', '/'] : List Char) ++ ch :: w = '/' :: '/' :: ch :: w := rfl
    rw [e2, hw, e3, normpathL, if_neg (List.cons_ne_nil _ _), initSlashes_two ch w hch, e2,
      splitSlash_slash, splitSlash_slash, ← hw, splitSlash_join _ (List.cons_ne_nil _ _) hsf,
      normComps_cons_empty, normComps_cons_empty, normComps_good 2 _ hG, hw, e3,
      if_neg (List.cons_ne_nil _ _)]

theorem normpathL_cases (p : List Char) :
    normpathL p = ['.'] ∨ normpathL p = ['/'] ∨ normpathL p = ['/', '/'] ∨
      ∃ iS comps, iS ≤ 2 ∧ GoodComps iS comps ∧ (∀ x ∈ comps, '/' ∉ x) ∧ comps ≠ [] ∧
        normpathL p = List.replicate iS '/' ++ joinSlash comps := by
  by_cases hp : p = []
  · subst hp
    exact Or.inl rfl
  · have h2 := initSlashes_le_two p
    cases hc : normComps (initSlashes p) (splitSlash p) with
    | nil =>
      rcases (show initSlashes p = 0 ∨ initSlashes p = 1 ∨ initSlashes p = 2 by omega)
        with h0 | h0 | h0
      · left
        rw [normpathL, if_neg hp, hc, h0]
        simp [joinSlash]
      · right; left
        rw [normpathL, if_neg hp, hc, h0]
        simp [joinSlash]
      · right; right; left
        rw [normpathL, if_neg hp, hc, h0]
        simp [joinSlash]
    | cons c0 cr =>
      right; right; right
      have hG : GoodComps (initSlashes p) (c0 :: cr) := by
        rw [← hc]
        exact goodComps_normComps _ _
      have hsf : ∀ x ∈ c0 :: cr, '/' ∉ x := by
        rw [← hc]
        exact normComps_splitSlash_no_slash _ p
      obtain ⟨ch, c0', rfl⟩ :=
        List.exists_cons_of_ne_nil (goodComps_ne_nil_mem _ _ hG _ (List.mem_cons_self _ _))
      obtain ⟨w, hw⟩ := joinSlash_cons_head ch c0' cr
      have hres : List.replicate (initSlashes p) '/' ++ joinSlash ((ch :: c0') :: cr) ≠ [] := by
        intro hcon
        rw [List.append_eq_nil] at hcon
        exact List.cons_ne_nil ch w (by rw [← hw]; exact hcon.2)
      refine ⟨initSlashes p, (ch :: c0') :: cr, h2, hG, hsf, List.cons_ne_nil _ _, ?_⟩
      rw [normpathL, if_neg hp, hc, if_neg hres]

theorem normpathL_idem (p : List Char) : normpathL (normpathL p) = normpathL p := by
  rcases normpathL_cases p with h | h | h | ⟨iS, comps, hle, hG, hsf, hne, h⟩
  · rw [h]
    decide
  · rw [h]
    decide
  · rw [h]
    decide
  · rw [h]
    exact normpathL_fix iS comps hle hG hsf hne

theorem sanitizeL_idem_no_backslash (p : List Char) (h : '\\' ∉ p) :
    sanitizeL (sanitizeL p) = sanitizeL p := by
  have h1 : '\\' ∉ normpathL p := no_backslash_normpathL p h
  have e1 : sanitizeL p = normpathL p := by
    rw [sanitizeL, map_slashrepl_id _ h1]
  have h2 : '\\' ∉ normpathL (normpathL p) := no_backslash_normpathL _ h1
  rw [e1, sanitizeL, map_slashrepl_id _ h2, normpathL_idem, ← e1]

/-- C7: the claim that sanitize_path is idempotent for every input path
fails: normpath runs before the backslash replacement, so a backslash path
such as a backslash-joined parent reference is first left as one opaque
component and only the second application collapses the freshly created
slash-separated parent reference. -/
theorem c7_counterexample :
    (sanitize_path (sanitize_path ("a\\..\\b")) = sanitize_path ("a\\..\\b")) = False :=
  eq_false (by decide)

/-- C7 (amended): sanitize_path is pure and idempotent on every path
containing no backslash; on such paths it coincides with normpath, and
normpath is idempotent. -/
theorem c7_sanitize_idempotent_no_backslash (p : String) (h : '\\' ∉ p.data) :
    sanitize_path (sanitize_path p) = sanitize_path p := by
  show String.mk (sanitizeL (sanitizeL p.data)) = String.mk (sanitizeL p.data)
  rw [sanitizeL_idem_no_backslash p.data h]

theorem c7_sanitize_idempotent_no_backslash_witness :
    '\\' ∉ ("a/../b").data ∧
      sanitize_path (sanitize_path ("a/../b")) = sanitize_path ("a/../b") :=
  ⟨by decide, c7_sanitize_idempotent_no_backslash ("a/../b") (by decide)⟩

end FileSync
